import Mathlib

/-!
# Verification of the auth-mastra-template identity/authorization core

Shallow embedding of the repository's authentication pipeline:

* `signAssertion.ts` (`makeClientAssertion`) — building and signing the
  self-issued client assertion;
* `verifyAssertion.ts` (`makeVerifier`) — self-issued assertion verification
  with the in-process replay cache;
* the access-token verifier and the scope-checking `verifyToken` helper of
  the tickets tool;
* `helpdesk-agent.ts` (`getAccessToken`) — the per-(audience, scopes)
  access-token cache.

External effects (the `jose` signature checks, HTTP fetches, the file
system, `Date.now()`, `randomUUID`) are passed in as explicit oracle
arguments, so every definition is executable. Times are modelled as
integers: milliseconds for `Date.now()`-derived values and seconds for JWT
`exp`/`iat` claims, mirroring the JavaScript source.
-/

namespace AuthMastra

/-! ## JWK resolution and client-assertion signing (`signAssertion.ts`) -/

/-- A parsed private JWK as the code consumes it: only the `kid` and
`agent_id` members are inspected (the key material itself goes to the
black-box `importJWK`/`sign` calls). `none` models an absent member,
`some ""` an empty string (both falsy in JavaScript). -/
structure Jwk where
  kid : Option String
  agent_id : Option String
deriving Repr, DecidableEq

/-- The JSON body returned by the HTTP key endpoint: either a JWK Set
(`{keys: [...]}`) or a bare JWK. -/
inductive FetchPayload where
  | jwks (keys : List Jwk)
  | single (jwk : Jwk)
deriving Repr, DecidableEq

/-- The effectful environment of `makeClientAssertion`: the HTTP fetch
(`none` = non-ok response or transport failure), the file read
(`none` = `readFileSync`/`JSON.parse` throwing), the clock in
milliseconds, and the `randomUUID()` draw for this call. -/
structure SignEnv where
  fetch : String → Option FetchPayload
  readFile : String → Option Jwk
  nowMs : Nat
  uuid : String

/-- Error outcomes of `makeClientAssertion` (each is a thrown `Error` in
the source). -/
inductive SignError where
  | FetchFailed
  | FileReadFailed
  | EmptyKeySet
  | MissingKeyId
  | MissingAgentIdentifier
deriving Repr, DecidableEq

/-- The signed client assertion: the protected header (`alg`, `kid`) and
the claim set set by the `SignJWT` builder chain. -/
structure ClientAssertion where
  alg : String
  kid : String
  iss : String
  sub : String
  aud : String
  iat : Nat
  exp : Nat
  jti : String
deriving Repr, DecidableEq

/-- JavaScript truthiness for an optional string: `undefined` and `""`
are falsy. -/
def strTruthy : Option String → Bool
  | none => false
  | some s => s ≠ ""

/-- `String.prototype.startsWith`, modelled on the character list. -/
def strStartsWith (s pre : String) : Bool :=
  pre.data.isPrefixOf s.data

/-- `String.prototype.slice(n)` (with a non-negative index), modelled on the
character list. -/
def strDrop (s : String) (n : Nat) : String :=
  ⟨s.data.drop n⟩

/-- `privateJwkPath.startsWith('http://') || privateJwkPath.startsWith('https://')` -/
def isUrlPath (p : String) : Bool :=
  strStartsWith p ("http://") || strStartsWith p ("https://")

/-- The `priv` / `agent_id` resolution of `makeClientAssertion`:
URL paths are fetched (taking `keys[0]` of a JWK Set) and the caller's
`agentId` is used with `priv.agent_id` as fallback (`agentId || priv.agent_id`);
local file paths are read and `agent_id` is taken from the file alone. -/
def resolvePriv (env : SignEnv) (privateJwkPath : String)
    (agentId : Option String) : Except SignError (Jwk × Option String) :=
  if isUrlPath privateJwkPath then
    match env.fetch privateJwkPath with
    | none => .error .FetchFailed
    | some (.jwks keys) =>
      match keys.head? with
      | none => .error .EmptyKeySet
      | some priv =>
        .ok (priv, if strTruthy agentId then agentId else priv.agent_id)
    | some (.single priv) =>
      .ok (priv, if strTruthy agentId then agentId else priv.agent_id)
  else
    match env.readFile privateJwkPath with
    | none => .error .FileReadFailed
    | some priv => .ok (priv, priv.agent_id)

/-- `makeClientAssertion` of `signAssertion.ts`: resolve the private JWK
and the agent identity, require a truthy `kid` and a truthy `agent_id`,
then build the EdDSA-signed JWT with `iss = sub = agent_id`,
`aud = audience`, `iat = floor(Date.now()/1000)`, `exp = iat + 60`, and
`jti = randomUUID()`. -/
def makeClientAssertion (env : SignEnv) (privateJwkPath audience : String)
    (agentId : Option String) : Except SignError ClientAssertion :=
  match resolvePriv env privateJwkPath agentId with
  | .error e => .error e
  | .ok (priv, agent_id) =>
    match priv.kid with
    | none => .error .MissingKeyId
    | some kid =>
      if kid = "" then .error .MissingKeyId
      else
        match agent_id with
        | none => .error .MissingAgentIdentifier
        | some a =>
          if a = "" then .error .MissingAgentIdentifier
          else
            let now := env.nowMs / 1000
            .ok { alg := "EdDSA", kid := kid, iss := a, sub := a,
                  aud := audience, iat := now, exp := now + 60,
                  jti := env.uuid }

/-! ## Self-issued assertion verification (`verifyAssertion.ts`) -/

/-- The claim set `jwtVerify` hands back (`payload`): the members the
verifier destructures. `none` models an absent claim. -/
structure JosePayload where
  iss : Option String
  sub : Option String
  exp : Option Nat
  jti : Option String
deriving Repr, DecidableEq

/-- `jwtVerify`'s successful result: the payload and the protected
header's `kid`. -/
structure JoseOutcome where
  payload : JosePayload
  kid : Option String
deriving Repr, DecidableEq

/-- Error outcomes of the verifier returned by `makeVerifier` (each is a
thrown `Error` in the source; `JwtVerifyFailed` stands for any rejection
raised inside the `jose` library call: bad signature, audience mismatch,
malformed or expired token). -/
inductive VerifyError where
  | MissingBearerToken
  | JwtVerifyFailed
  | InvalidIssSub
  | MissingExpJti
  | ReplayDetected
deriving Repr, DecidableEq

/-- The module-level `replayCache : Map<string, number>` (`jti -> exp`),
modelled as an association list. -/
abbrev ReplayCache := List (String × Nat)

/-- `Map.prototype.has`. -/
def ReplayCache.hasKey (m : ReplayCache) (k : String) : Bool :=
  (List.any m fun p => p.1 = k)

/-- `Map.prototype.set`: replace the value under an existing key, else
append the binding. -/
def ReplayCache.setKey (m : ReplayCache) (k : String) (v : Nat) : ReplayCache :=
  match m with
  | [] => [(k, v)]
  | (k', v') :: rest =>
    if k' = k then (k, v) :: rest
    else (k', v') :: ReplayCache.setKey rest k v

/-- The verifier closure returned by `makeVerifier jwksUrl expectedAudience`.
The `jose` oracle argument models `jwtVerify(token, jwks, {audience})`:
`none` when the library throws (signature, audience, expiry, shape),
`some` with the payload and protected-header `kid` otherwise. Returns the
`{agentId, kid}` result together with the replay cache left behind. -/
def verifyAssertion (jose : String → Option JoseOutcome) (replay : ReplayCache)
    (authorizationHeader : Option String) :
    Except VerifyError ((String × Option String) × ReplayCache) :=
  match authorizationHeader with
  | none => .error .MissingBearerToken
  | some h =>
    if strStartsWith h ("Bearer ") then
      let token := strDrop h 7
      match jose token with
      | none => .error .JwtVerifyFailed
      | some r =>
        match r.payload.iss with
        | none => .error .InvalidIssSub
        | some iss =>
          if iss = "" then .error .InvalidIssSub
          else if r.payload.sub ≠ some iss then .error .InvalidIssSub
          else
            match r.payload.exp, r.payload.jti with
            | some exp, some jti =>
              if exp = 0 ∨ jti = "" then .error .MissingExpJti
              else if ReplayCache.hasKey replay jti then .error .ReplayDetected
              else .ok ((iss, r.kid), ReplayCache.setKey replay jti exp)
            | _, _ => .error .MissingExpJti
    else .error .MissingBearerToken

/-! ## Access-token cache (`helpdesk-agent.ts`, `getAccessToken`)

Times derived from `Date.now()` are integer milliseconds; a JWT `exp`
claim is integer seconds and is multiplied by 1000 before comparison,
exactly as in the source. The cache entry additionally records, as ghost
data, the audience and scope list of the `getAccessToken` call that
stored it (in the source these are recoverable only from the map key). -/

/-- The result of `decodeJWTPayload` when the `JSON.parse` succeeds: only
the `exp` member is read. -/
structure DecodedPayload where
  exp : Option Int
deriving Repr, DecidableEq

/-- `payload?.exp * 1000` guarded by JavaScript truthiness: `none` when
the decode failed or `exp` is absent (the `NaN` cases). -/
def tokenExpMs (decode : String → Option DecodedPayload) (t : String) : Option Int :=
  match decode t with
  | none => none
  | some p =>
    match p.exp with
    | none => none
    | some e => some (e * 1000)

/-- A `tokenCache` entry `{token, expires}`, with the ghost fields
`aud`/`scopes` recording the storing call's arguments. -/
structure CacheEntry where
  token : String
  expires : Int
  aud : String
  scopes : List String
deriving Repr, DecidableEq

/-- The module-level `tokenCache : Map<string, {token, expires}>`. -/
abbrev TokenCache := List (String × CacheEntry)

/-- `Map.prototype.get`. -/
def TokenCache.getKey (c : TokenCache) (k : String) : Option CacheEntry :=
  (List.find? (fun p => p.1 = k) c).map Prod.snd

/-- `Map.prototype.delete` (keeping the remaining bindings in order). -/
def TokenCache.delKey (c : TokenCache) (k : String) : TokenCache :=
  List.filter (fun p => p.1 ≠ k) c

/-- `Map.prototype.set`. -/
def TokenCache.setKey (c : TokenCache) (k : String) (v : CacheEntry) : TokenCache :=
  match c with
  | [] => [(k, v)]
  | (k', v') :: rest =>
    if k' = k then (k, v) :: rest
    else (k', v') :: TokenCache.setKey rest k v

/-- Lexicographic comparison of character lists by code point, the order
`Array.prototype.sort()` applies to its string elements. -/
def lexLe : List Char → List Char → Bool
  | [], _ => true
  | _ :: _, [] => false
  | a :: as, b :: bs =>
    if a = b then lexLe as bs
    else decide (a.toNat < b.toNat)

/-- The string order used by `scopes.sort()`. -/
def jsStrLe (a b : String) : Prop :=
  lexLe a.data b.data = true

instance : DecidableRel jsStrLe := fun a b => by
  unfold jsStrLe
  infer_instance

/-- `scopes.sort()`, modelled as insertion sort under the lexicographic
string order. -/
def sortScopes (scopes : List String) : List String :=
  List.insertionSort jsStrLe scopes

/-- `Array.prototype.join(",")`. -/
def joinComma : List String → String
  | [] => ""
  | [s] => s
  | s :: rest => s ++ "," ++ joinComma rest

/-- The cache key: `` `${targetAudience}:${scopes.sort().join(",")}` ``. -/
def cacheKey (targetAudience : String) (scopes : List String) : String :=
  targetAudience ++ ":" ++ joinComma (sortScopes scopes)

/-- The outcome of one `getAccessToken` call: the returned token, whether
it came from the cache, and the cache left behind. -/
structure GetResult where
  token : String
  fromCache : Bool
  cache : TokenCache
deriving Repr, DecidableEq

/-- The miss path: exchange (the oracle's `freshToken`), compute
`cacheUntil = tokenExp ? min(tokenExp - 60000, now + 240000) : now + 240000`,
store, return. -/
def storeFresh (decode : String → Option DecodedPayload) (now : Int)
    (freshToken : String) (c : TokenCache) (targetAudience : String)
    (scopes : List String) (key : String) : GetResult :=
  let cacheUntil :=
    match tokenExpMs decode freshToken with
    | some e => if e ≠ 0 then min (e - 60000) (now + 240000) else now + 240000
    | none => now + 240000
  ⟨freshToken, false,
    TokenCache.setKey c key ⟨freshToken, cacheUntil, targetAudience, scopes⟩⟩

/-- `getAccessToken(targetAudience, scopes)` of `helpdesk-agent.ts`,
on the success path of the exchange. The `decode` oracle models
`decodeJWTPayload`; `now` models `Date.now()`; `freshToken` is what
`exchangeForAccessToken` would return on this call. A cached entry is
served iff `now < expires` and the independently decoded expiry satisfies
`tokenExp && tokenExp > now + 30000`; an entry passing the first check
but failing the second is deleted before the fresh exchange. -/
def getAccessToken (decode : String → Option DecodedPayload) (now : Int)
    (freshToken : String) (c : TokenCache) (targetAudience : String)
    (scopes : List String) : GetResult :=
  match TokenCache.getKey c (cacheKey targetAudience scopes) with
  | some cached =>
    if now < cached.expires then
      match tokenExpMs decode cached.token with
      | some e =>
        if e ≠ 0 ∧ now + 30000 < e then ⟨cached.token, true, c⟩
        else storeFresh decode now freshToken
          (TokenCache.delKey c (cacheKey targetAudience scopes))
          targetAudience scopes (cacheKey targetAudience scopes)
      | none => storeFresh decode now freshToken
          (TokenCache.delKey c (cacheKey targetAudience scopes))
          targetAudience scopes (cacheKey targetAudience scopes)
    else storeFresh decode now freshToken c targetAudience scopes
      (cacheKey targetAudience scopes)
  | none => storeFresh decode now freshToken c targetAudience scopes
      (cacheKey targetAudience scopes)

/-! ## Access-token verification (`verifyToken` and the tickets tools) -/

/-- The claim set of a service-issued access token as the verifier reads
it: issuer, the vouched-for subject, and the decoded scope list. -/
structure AccessPayload where
  iss : Option String
  sub : Option String
  scopes : List String
deriving Repr, DecidableEq

/-- Error outcomes of access-token verification and of the tool-side
`verifyToken` wrapper. -/
inductive AccessError where
  | MissingBearerToken
  | JwtVerifyFailed
  | UntrustedIssuer
  | MissingRequiredClaims
  | InsufficientScope (scope : String)
  | TokenServiceRequired
deriving Repr, DecidableEq

/-- The verified result `{agentId, scopes}`. -/
structure AccessResult where
  agentId : String
  scopes : List String
deriving Repr, DecidableEq

/-- Modelled from the spec: the verifier returned by
`makeAccessTokenVerifier(jwksUrl, expectedAudience)`, whose implementation
is imported by `tickets-tool` (`src/unnamed/part_002`) but absent from the
repository snapshot. Per §4.5 it performs the same bearer parsing and
signature/audience checks as the self-issued verifier (folded into the
`jose` oracle, as above) but requires the issuer to equal the trusted
Token Service identity — rejecting with `UntrustedIssuer` otherwise, with
`issuer ≠ subject` expected — and returns the vouched-for agent identifier
and the decoded scope list. The required-scope check is not here: in the
source it lives in `verifyToken` below. -/
def verifyAccessToken (jose : String → Option AccessPayload)
    (tokenServiceId : String) (authorizationHeader : Option String) :
    Except AccessError AccessResult :=
  match authorizationHeader with
  | none => .error .MissingBearerToken
  | some h =>
    if strStartsWith h ("Bearer ") then
      match jose (strDrop h 7) with
      | none => .error .JwtVerifyFailed
      | some p =>
        if p.iss ≠ some tokenServiceId then .error .UntrustedIssuer
        else
          match p.sub with
          | none => .error .MissingRequiredClaims
          | some sub => .ok ⟨sub, p.scopes⟩
    else .error .MissingBearerToken

/-- `verifyToken(authHeader, requiredScope)` of the tickets tool
(`src/unnamed/part_002`): only the Token-Service verifier is consulted;
a result lacking `requiredScope` in its scope list fails with the
insufficient-permissions error naming that scope; an `Invalid issuer`
failure from the verifier is rewrapped as the token-service-required
error. -/
def verifyToken (jose : String → Option AccessPayload) (tokenServiceId : String)
    (authHeader : String) (requiredScope : String) :
    Except AccessError AccessResult :=
  match verifyAccessToken jose tokenServiceId (some authHeader) with
  | .ok result =>
    if result.scopes.contains requiredScope then
      .ok ⟨result.agentId, result.scopes⟩
    else .error (.InsufficientScope requiredScope)
  | .error .UntrustedIssuer => .error .TokenServiceRequired
  | .error e => .error e

/-- The ticket built by `createTicket` (the stub business logic). -/
structure Ticket where
  id : String
  title : String
  «by» : String
  description : Option String
  status : String
deriving Repr, DecidableEq

/-- `createTicket(title, description, agentId)` of the tickets tool. -/
def createTicket (title : String) (description : Option String)
    (agentId : String) (nowMs : Nat) : Ticket × Bool :=
  (⟨"T-" ++ toString nowMs, title, agentId, description, "open"⟩, true)

/-- `createTicketTool.execute`: verify the supplied token against the
`tickets.write` scope, then run the business logic with the verified
agent identity; any verification error aborts before `createTicket`. -/
def createTicketToolExecute (jose : String → Option AccessPayload)
    (tokenServiceId : String) (authToken title : String)
    (description : Option String) (nowMs : Nat) :
    Except AccessError (Ticket × Bool) :=
  match verifyToken jose tokenServiceId ("Bearer " ++ authToken)
      ("tickets.write") with
  | .error e => .error e
  | .ok r => .ok (createTicket title description r.agentId nowMs)

/-! ## Configuration resolution (C9 sites) -/

/-- `process.env.NAME || "default"`: the default replaces an absent *or
empty* value. -/
def envOr (env : String → Option String) (name dflt : String) : String :=
  match env name with
  | none => dflt
  | some v => if v = "" then dflt else v

/-- `process.env.NAME ?? "default"`: the default replaces only an absent
value. -/
def envNullish (env : String → Option String) (name dflt : String) : String :=
  (env name).getD dflt

/-- The configuration read of the defaulting `getAccessToken` variant
(`helpdesk-agent.ts` lines 31–37): private-key path, agent identifier and
Token Service URL all fall back to hard-coded values. -/
def helpdeskConfigDefaults (env : String → Option String) :
    String × String × String :=
  (envOr env ("HELPDESK_PRIVATE_JWK_PATH")
    ("/home/brucec/techplay2/sandbox/auth-template-hackathon-v0/secrets/a1-ed25519-2025-08-15-d0a5e088.private.jwk.json"),
   envOr env ("HELPDESK_AGENT_ID") ("agent://demo/a1"),
   envOr env ("TOKEN_SERVICE_URL") ("http://localhost:8787"))

/-- The configuration read of the verifier construction sites
(`src/unnamed/part_002` lines 15–18 and 21–24, and `tickets-tool.ts`
lines 14–17): JWKS URLs and the expected audience fall back to hard-coded
values via `??`. -/
def verifierConfigDefaults (env : String → Option String) :
    String × String × String :=
  (envNullish env ("TOKEN_SERVICE_JWKS_URL")
    ("http://localhost:8787/.well-known/jwks.json"),
   envNullish env ("TICKETS_AUD") ("https://tools.local/tickets"),
   envNullish env ("JWKS_URL") ("http://localhost:8787/.well-known/jwks.json"))

/-- Missing-configuration failures of the env-validating `getAccessToken`
variant. -/
inductive ConfigError where
  | MissingPrivateJwkPath
  | MissingAgentId
  | MissingTokenServiceUrl
deriving Repr, DecidableEq

/-- The configuration read of the env-validating `getAccessToken` variant
(`helpdesk-agent.ts` lines 274–288): each of the three variables is read
raw and a falsy value throws. -/
def helpdeskConfigChecked (env : String → Option String) :
    Except ConfigError (String × String × String) :=
  let privateJwkPath := env ("HELPDESK_PRIVATE_JWK_PATH")
  let agentId := env ("HELPDESK_AGENT_ID")
  let tokenServiceUrl := env ("TOKEN_SERVICE_URL")
  if ¬ strTruthy privateJwkPath then .error .MissingPrivateJwkPath
  else if ¬ strTruthy agentId then .error .MissingAgentId
  else if ¬ strTruthy tokenServiceUrl then .error .MissingTokenServiceUrl
  else .ok (privateJwkPath.getD (""), agentId.getD (""), tokenServiceUrl.getD (""))

/-! ## Order lemmas for the scope sort -/

theorem charToNat_inj {a b : Char} (h : a.toNat = b.toNat) : a = b := by
  rcases a with ⟨⟨⟨⟨a, ha⟩⟩⟩, va⟩
  rcases b with ⟨⟨⟨⟨b, hb⟩⟩⟩, vb⟩
  simp only [Char.toNat, UInt32.toNat, BitVec.toNat] at h
  subst h
  rfl

theorem stringDataEq {s t : String} (h : s.data = t.data) : s = t := by
  cases s; cases t; simp_all

theorem lexLe_total (a b : List Char) : lexLe a b = true ∨ lexLe b a = true := by
  induction a generalizing b with
  | nil => left; rfl
  | cons x xs ih =>
    cases b with
    | nil => right; rfl
    | cons y ys =>
      by_cases hxy : x = y
      · subst hxy
        simp only [lexLe, if_pos rfl]
        exact ih ys
      · have hyx : ¬ y = x := fun h => hxy h.symm
        simp only [lexLe, if_neg hxy, if_neg hyx, decide_eq_true_eq]
        rcases Nat.lt_trichotomy x.toNat y.toNat with h | h | h
        · exact Or.inl h
        · exact absurd (charToNat_inj h) hxy
        · exact Or.inr h

theorem lexLe_trans : ∀ {a b c : List Char},
    lexLe a b = true → lexLe b c = true → lexLe a c = true := by
  intro a
  induction a with
  | nil => intro b c _ _; rfl
  | cons x xs ih =>
    intro b c hab hbc
    cases b with
    | nil => exact Bool.noConfusion hab
    | cons y ys =>
      cases c with
      | nil => exact Bool.noConfusion hbc
      | cons z zs =>
        by_cases hxy : x = y <;> by_cases hyz : y = z
        · subst hxy; subst hyz
          simp only [lexLe, if_pos rfl] at hab hbc ⊢
          exact ih hab hbc
        · subst hxy
          simp only [lexLe, if_pos rfl, if_neg hyz, decide_eq_true_eq] at hab hbc ⊢
          exact hbc
        · subst hyz
          simp only [lexLe, if_neg hxy, decide_eq_true_eq] at hab ⊢
          exact hab
        · simp only [lexLe, if_neg hxy, if_neg hyz, decide_eq_true_eq] at hab hbc
          have hlt : x.toNat < z.toNat := Nat.lt_trans hab hbc
          have hxz : ¬ x = z := fun h => Nat.lt_irrefl _ (h ▸ hlt)
          simp only [lexLe, if_neg hxz, decide_eq_true_eq]
          exact hlt

theorem lexLe_antisymm : ∀ {a b : List Char},
    lexLe a b = true → lexLe b a = true → a = b := by
  intro a
  induction a with
  | nil =>
    intro b _ hba
    cases b with
    | nil => rfl
    | cons y ys => exact Bool.noConfusion hba
  | cons x xs ih =>
    intro b hab hba
    cases b with
    | nil => exact Bool.noConfusion hab
    | cons y ys =>
      by_cases hxy : x = y
      · subst hxy
        simp only [lexLe, if_pos rfl] at hab hba
        rw [ih hab hba]
      · have hyx : ¬ y = x := fun h => hxy h.symm
        simp only [lexLe, if_neg hxy, if_neg hyx, decide_eq_true_eq] at hab hba
        exact absurd (Nat.lt_trans hab hba) (Nat.lt_irrefl _)

instance : IsTotal String jsStrLe :=
  ⟨fun a b => lexLe_total a.data b.data⟩

instance : IsTrans String jsStrLe :=
  ⟨fun _ _ _ hab hbc => lexLe_trans hab hbc⟩

instance : IsAntisymm String jsStrLe :=
  ⟨fun _ _ hab hba => stringDataEq (lexLe_antisymm hab hba)⟩

/-- Permuted scope lists sort identically. -/
theorem sortScopes_perm {l₁ l₂ : List String} (h : l₁.Perm l₂) :
    sortScopes l₁ = sortScopes l₂ :=
  List.eq_of_perm_of_sorted
    ((List.perm_insertionSort jsStrLe l₁).trans
      (h.trans (List.perm_insertionSort jsStrLe l₂).symm))
    (List.sorted_insertionSort jsStrLe l₁)
    (List.sorted_insertionSort jsStrLe l₂)

theorem sortScopes_mem {l : List String} {s : String} :
    s ∈ sortScopes l ↔ s ∈ l :=
  (List.perm_insertionSort jsStrLe l).mem_iff

/-! ## Separator lemmas for the cache key -/

/-- Splitting at a separator character absent from both prefixes is
unambiguous. -/
theorem append_sep_inj {c : Char} : ∀ {a₁ a₂ b₁ b₂ : List Char},
    c ∉ a₁ → c ∉ a₂ → a₁ ++ c :: b₁ = a₂ ++ c :: b₂ → a₁ = a₂ ∧ b₁ = b₂ := by
  intro a₁
  induction a₁ with
  | nil =>
    intro a₂ b₁ b₂ _ h₂ h
    cases a₂ with
    | nil => exact ⟨rfl, by simpa using h⟩
    | cons y ys =>
      simp only [List.nil_append, List.cons_append, List.cons.injEq] at h
      exact absurd (h.1 ▸ List.mem_cons_self y ys) h₂
  | cons x xs ih =>
    intro a₂ b₁ b₂ h₁ h₂ h
    cases a₂ with
    | nil =>
      simp only [List.nil_append, List.cons_append, List.cons.injEq] at h
      exact absurd (h.1.symm ▸ List.mem_cons_self x xs) h₁
    | cons y ys =>
      simp only [List.cons_append, List.cons.injEq] at h
      have hx : c ∉ xs := fun hm => h₁ (List.mem_cons_of_mem x hm)
      have hy : c ∉ ys := fun hm => h₂ (List.mem_cons_of_mem y hm)
      obtain ⟨he, ht⟩ := ih hx hy h.2
      exact ⟨by rw [h.1, he], ht⟩

/-- A scope string that survives the amended cache-key analysis: nonempty
and without the `","` join separator. -/
def goodScope (s : String) : Prop := s ≠ "" ∧ (',') ∉ s.data

theorem empty_data_iff {s : String} : s.data = [] ↔ s = "" := by
  constructor
  · exact fun h => stringDataEq h
  · intro h; rw [h]

theorem joinComma_ne_empty {s : String} {r : List String} (hs : s ≠ "") :
    joinComma (s :: r) ≠ "" := by
  cases r with
  | nil => simpa [joinComma] using hs
  | cons t ts =>
    intro h
    have hd : (s ++ "," ++ joinComma (t :: ts)).data = [] := by
      rw [show s ++ "," ++ joinComma (t :: ts) = joinComma (s :: t :: ts) from rfl, h]
    rw [String.data_append, String.data_append] at hd
    rcases List.append_eq_nil.mp hd with ⟨hd', _⟩
    rcases List.append_eq_nil.mp hd' with ⟨_, hcomma⟩
    exact List.noConfusion hcomma

/-- `join(",")` is injective on lists of nonempty, comma-free scopes. -/
theorem joinComma_inj : ∀ {l₁ l₂ : List String},
    (∀ s ∈ l₁, goodScope s) → (∀ s ∈ l₂, goodScope s) →
    joinComma l₁ = joinComma l₂ → l₁ = l₂ := by
  intro l₁
  induction l₁ with
  | nil =>
    intro l₂ _ h₂ h
    cases l₂ with
    | nil => rfl
    | cons s r =>
      have hs : s ≠ "" := (h₂ s (List.mem_cons_self s r)).1
      exact absurd h.symm (joinComma_ne_empty hs)
  | cons s₁ r₁ ih =>
    intro l₂ h₁ h₂ h
    cases l₂ with
    | nil =>
      have hs : s₁ ≠ "" := (h₁ s₁ (List.mem_cons_self s₁ r₁)).1
      exact absurd h (joinComma_ne_empty hs)
    | cons s₂ r₂ =>
      cases r₁ with
      | nil =>
        cases r₂ with
        | nil => simpa [joinComma] using h
        | cons t₂ ts₂ =>
          exfalso
          have hd : s₁.data = s₂.data ++ (',') :: (joinComma (t₂ :: ts₂)).data := by
            have := congrArg String.data h
            simpa [joinComma, String.data_append, List.append_assoc] using this
          have : (',') ∈ s₁.data := by
            rw [hd]
            exact List.mem_append_right _ (List.mem_cons_self _ _)
          exact (h₁ s₁ (List.mem_cons_self _ _)).2 this
      | cons t₁ ts₁ =>
        cases r₂ with
        | nil =>
          exfalso
          have hd : s₂.data = s₁.data ++ (',') :: (joinComma (t₁ :: ts₁)).data := by
            have := congrArg String.data h.symm
            simpa [joinComma, String.data_append, List.append_assoc] using this
          have : (',') ∈ s₂.data := by
            rw [hd]
            exact List.mem_append_right _ (List.mem_cons_self _ _)
          exact (h₂ s₂ (List.mem_cons_self _ _)).2 this
        | cons t₂ ts₂ =>
          have hd : s₁.data ++ (',') :: (joinComma (t₁ :: ts₁)).data =
              s₂.data ++ (',') :: (joinComma (t₂ :: ts₂)).data := by
            have := congrArg String.data h
            simpa [joinComma, String.data_append, List.append_assoc] using this
          obtain ⟨ha, hb⟩ := append_sep_inj
            (h₁ s₁ (List.mem_cons_self _ _)).2
            (h₂ s₂ (List.mem_cons_self _ _)).2 hd
          have hs : s₁ = s₂ := stringDataEq ha
          have hr : t₁ :: ts₁ = t₂ :: ts₂ :=
            ih (fun s hs => h₁ s (List.mem_cons_of_mem s₁ hs))
              (fun s hs => h₂ s (List.mem_cons_of_mem s₂ hs))
              (stringDataEq hb)
          rw [hs, hr]

/-- The cache key splits unambiguously at the first `":"` when neither
audience contains one. -/
theorem cacheKey_inj {a₁ a₂ : String} {s₁ s₂ : List String}
    (h₁ : (':') ∉ a₁.data) (h₂ : (':') ∉ a₂.data)
    (h : cacheKey a₁ s₁ = cacheKey a₂ s₂) :
    a₁ = a₂ ∧ joinComma (sortScopes s₁) = joinComma (sortScopes s₂) := by
  have hd : a₁.data ++ (':') :: (joinComma (sortScopes s₁)).data =
      a₂.data ++ (':') :: (joinComma (sortScopes s₂)).data := by
    have := congrArg String.data h
    simpa [cacheKey, String.data_append, List.append_assoc] using this
  obtain ⟨ha, hb⟩ := append_sep_inj h₁ h₂ hd
  exact ⟨stringDataEq ha, stringDataEq hb⟩

/-! ## Cache map lemmas and the key/scopes invariant -/

theorem getKey_nil (k' : String) : TokenCache.getKey [] k' = none := rfl

theorem getKey_cons (k₀ : String) (v₀ : CacheEntry) (rest : TokenCache)
    (k' : String) :
    TokenCache.getKey ((k₀, v₀) :: rest) k' =
      if k₀ = k' then some v₀ else TokenCache.getKey rest k' := by
  by_cases h : k₀ = k' <;> simp [TokenCache.getKey, List.find?, h]

theorem setKey_cons (k₀ : String) (v₀ : CacheEntry) (rest : TokenCache)
    (k : String) (v : CacheEntry) :
    TokenCache.setKey ((k₀, v₀) :: rest) k v =
      if k₀ = k then (k, v) :: rest
      else (k₀, v₀) :: TokenCache.setKey rest k v := rfl

theorem delKey_cons (k₀ : String) (v₀ : CacheEntry) (rest : TokenCache)
    (k : String) :
    TokenCache.delKey ((k₀, v₀) :: rest) k =
      if k₀ = k then TokenCache.delKey rest k
      else (k₀, v₀) :: TokenCache.delKey rest k := by
  by_cases h : k₀ = k <;> simp [TokenCache.delKey, List.filter, h]

theorem getKey_setKey (c : TokenCache) (k : String) (v : CacheEntry) (k' : String) :
    TokenCache.getKey (TokenCache.setKey c k v) k' =
      if k = k' then some v else TokenCache.getKey c k' := by
  induction c with
  | nil =>
    show TokenCache.getKey [(k, v)] k' = _
    by_cases h : k = k' <;> simp [getKey_cons, getKey_nil, h]
  | cons p rest ih =>
    obtain ⟨k₀, v₀⟩ := p
    rw [setKey_cons]
    by_cases h₀ : k₀ = k
    · subst h₀
      by_cases h : k₀ = k' <;> simp [getKey_cons, h]
    · rw [if_neg h₀]
      by_cases h : k₀ = k'
      · have hk : ¬ k = k' := fun hkk => h₀ (h.trans hkk.symm)
        simp [getKey_cons, h, hk, ih]
      · simp [getKey_cons, h, ih]

theorem getKey_delKey (c : TokenCache) (k k' : String) :
    TokenCache.getKey (TokenCache.delKey c k) k' =
      if k = k' then none else TokenCache.getKey c k' := by
  induction c with
  | nil =>
    show TokenCache.getKey [] k' = _
    by_cases h : k = k' <;> simp [getKey_nil, h]
  | cons p rest ih =>
    obtain ⟨k₀, v₀⟩ := p
    rw [delKey_cons]
    by_cases h₀ : k₀ = k
    · subst h₀
      by_cases h : k₀ = k'
      · subst h
        simp [ih]
      · simp [getKey_cons, h, ih]
    · rw [if_neg h₀]
      by_cases h : k₀ = k'
      · have hk : ¬ k = k' := fun hkk => h₀ (h.trans hkk.symm)
        simp [getKey_cons, h, hk, ih]
      · simp [getKey_cons, h, ih]

/-- The token caches reachable from the initially empty `tokenCache`
through `getAccessToken` calls. -/
inductive Reached : TokenCache → Prop where
  | empty : Reached []
  | step (decode : String → Option DecodedPayload) (now : Int)
      (freshToken : String) (c : TokenCache) (aud : String)
      (scopes : List String) :
      Reached c → Reached (getAccessToken decode now freshToken c aud scopes).cache

/-- One `getAccessToken` call either leaves the cache untouched (hit) or
stores a fresh entry carrying its own audience and scopes under its own
key, over either the old cache or the old cache with that key deleted. -/
theorem getAccessToken_cache_spec (decode : String → Option DecodedPayload)
    (now : Int) (freshToken : String) (c : TokenCache) (aud : String)
    (scopes : List String) :
    (getAccessToken decode now freshToken c aud scopes).cache = c ∨
    ∃ c' u, (c' = c ∨ c' = TokenCache.delKey c (cacheKey aud scopes)) ∧
      (getAccessToken decode now freshToken c aud scopes).cache =
        TokenCache.setKey c' (cacheKey aud scopes)
          ⟨freshToken, u, aud, scopes⟩ := by
  unfold getAccessToken
  split
  · split
    · split
      · split
        · exact Or.inl rfl
        · exact Or.inr ⟨_, _, Or.inr rfl, rfl⟩
      · exact Or.inr ⟨_, _, Or.inr rfl, rfl⟩
    · exact Or.inr ⟨_, _, Or.inl rfl, rfl⟩
  · exact Or.inr ⟨_, _, Or.inl rfl, rfl⟩

/-- Every entry of a reachable cache sits under the key computed from the
audience and scope list of the call that stored it. -/
theorem reached_key_consistent {c : TokenCache} (hc : Reached c) :
    ∀ k e, TokenCache.getKey c k = some e → k = cacheKey e.aud e.scopes := by
  induction hc with
  | empty => intro k e h; exact Option.noConfusion h
  | step decode now freshToken c aud scopes _ ih =>
    intro k e h
    rcases getAccessToken_cache_spec decode now freshToken c aud scopes with
      hsp | ⟨c', u, hc', hsp⟩
    · rw [hsp] at h
      exact ih k e h
    · rw [hsp, getKey_setKey] at h
      by_cases hk : cacheKey aud scopes = k
      · rw [if_pos hk] at h
        obtain rfl := Option.some.inj h
        exact hk.symm
      · rw [if_neg hk] at h
        rcases hc' with rfl | rfl
        · exact ih k e h
        · rw [getKey_delKey, if_neg hk] at h
          exact ih k e h

/-! ## Bearer-header lemmas -/

theorem strStartsWith_append (p t : String) :
    strStartsWith (p ++ t) p = true := by
  unfold strStartsWith
  rw [String.data_append, List.isPrefixOf_iff_prefix]
  exact List.prefix_append p.data t.data

theorem strDrop_append (p t : String) :
    strDrop (p ++ t) p.data.length = t := by
  unfold strDrop
  rw [String.data_append, List.drop_left]

theorem hasKey_setKey_self (m : ReplayCache) (k : String) (v : Nat) :
    ReplayCache.hasKey (ReplayCache.setKey m k v) k = true := by
  induction m with
  | nil => simp [ReplayCache.setKey, ReplayCache.hasKey]
  | cons p rest ih =>
    obtain ⟨k₀, v₀⟩ := p
    by_cases h : k₀ = k
    · simp [ReplayCache.setKey, h, ReplayCache.hasKey]
    · simp only [ReplayCache.setKey, if_neg h]
      simp only [ReplayCache.hasKey, List.any_cons] at ih ⊢
      rw [ih]
      simp

/-! ## C1 — replay detection in `verifyAssertion.ts` -/

/-- A concrete `jwtVerify` oracle for the replay scenario: the token
`"tok"` carries a self-issued payload with `exp = 2000` and `jti = "j"`. -/
def joseReplayOracle : String → Option JoseOutcome := fun t =>
  if t = "tok" then
    some ⟨⟨some ("agent://a"), some ("agent://a"), some 2000, some ("j")⟩, some ("kid1")⟩
  else none

/-- C1, counterexample. The claim says a `jti` whose previous replay
record has expired is accepted again. Concretely: the replay cache holds
`("j", 10)` — a record long expired by the (seconds) time 1000 at which
the token `"tok"` (whose own `exp` is 2000, hence alive) is presented —
yet the code rejects with `ReplayDetected`, because `verifyAssertion.ts`
tests only `replayCache.has(jti)` and never compares the recorded expiry
with the clock. -/
theorem replay_expired_record_still_rejected_cex :
    verifyAssertion joseReplayOracle [("j", 10)] (some ("Bearer tok")) =
      .error .ReplayDetected ∧
    (10 : Nat) < 1000 ∧ (1000 : Nat) < 2000 ∧
    joseReplayOracle ("tok") =
      some ⟨⟨some ("agent://a"), some ("agent://a"), some 2000, some ("j")⟩, some ("kid1")⟩ := by
  refine ⟨by rfl, by decide, by decide, by rfl⟩

/-- C1 (amended): for every verification call that reaches the replay
check (bearer prefix present, `jwtVerify` succeeds, `iss` truthy and equal
to `sub`, `exp` and `jti` truthy), if the token's `jwtId` is already
recorded in the replay table — whether or not the record has expired —
verification fails with `ReplayDetected`; otherwise `{jwtId -> expiresAt}`
is recorded and verification accepts. Consequently a valid assertion
verifies exactly once and a second verification with the identical `jti`
fails. -/
theorem replay_guard_exactly_once (jose : String → Option JoseOutcome)
    (replay : ReplayCache) (t a : String) (e : Nat) (j : String)
    (kid : Option String)
    (hj : jose t = some ⟨⟨some a, some a, some e, some j⟩, kid⟩)
    (ha : a ≠ "") (he : e ≠ 0) (hjn : j ≠ "") :
    (ReplayCache.hasKey replay j = true →
      verifyAssertion jose replay (some ("Bearer " ++ t)) =
        .error .ReplayDetected) ∧
    (ReplayCache.hasKey replay j = false →
      verifyAssertion jose replay (some ("Bearer " ++ t)) =
        .ok ((a, kid), ReplayCache.setKey replay j e) ∧
      verifyAssertion jose (ReplayCache.setKey replay j e)
        (some ("Bearer " ++ t)) = .error .ReplayDetected) := by
  have hpre : strStartsWith ("Bearer " ++ t) ("Bearer ") = true :=
    strStartsWith_append _ t
  have hdrop : strDrop ("Bearer " ++ t) 7 = t := strDrop_append ("Bearer ") t
  constructor
  · intro hrec
    simp only [verifyAssertion, hpre, if_true, hdrop, hj, hrec]
    simp [ha, he, hjn]
  · intro hrec
    constructor
    · simp only [verifyAssertion, hpre, if_true, hdrop, hj, hrec]
      simp [ha, he, hjn]
    · have hrec' : ReplayCache.hasKey (ReplayCache.setKey replay j e) j = true :=
      hasKey_setKey_self replay j e
      simp only [verifyAssertion, hpre, if_true, hdrop, hj, hrec']
      simp [ha, he, hjn]

/-- C1, witness for the amended theorem: the assertion carried by `"tok"`
verifies once from the empty replay cache and is rejected as a replay the
second time. -/
theorem replay_guard_exactly_once_witness :
    verifyAssertion joseReplayOracle [] (some ("Bearer tok")) =
      .ok (("agent://a", some ("kid1")), [("j", 2000)]) ∧
    verifyAssertion joseReplayOracle [("j", 2000)] (some ("Bearer tok")) =
      .error .ReplayDetected := by
  have h := (replay_guard_exactly_once joseReplayOracle [] "tok" "agent://a"
    2000 ("j") (some ("kid1")) (by rfl) (by decide) (by decide) (by decide)).2
    (by rfl)
  exact ⟨h.1, h.2⟩

/-! ## C2 — the access-token verifier rejects untrusted issuers -/

/-- C2: for every bearer token presented to the access-token verifier, if
the token's issuer is not the trusted Token Service identity, verification
fails with `UntrustedIssuer` even when the token is well-formed and
validly signed (the `jose` oracle accepted it); in particular a
self-issued assertion (`iss = sub = agent`, `agent` distinct from the
Token Service identity) is never accepted, and the tool-side `verifyToken`
wrapper turns the rejection into its token-service-required error rather
than a success. -/
theorem access_token_untrusted_issuer_rejected
    (jose : String → Option AccessPayload) (tokenServiceId t : String)
    (p : AccessPayload) (hj : jose t = some p)
    (hiss : p.iss ≠ some tokenServiceId) :
    verifyAccessToken jose tokenServiceId (some ("Bearer " ++ t)) =
      .error .UntrustedIssuer ∧
    ∀ requiredScope,
      verifyToken jose tokenServiceId ("Bearer " ++ t) requiredScope =
        .error .TokenServiceRequired := by
  have hpre : strStartsWith ("Bearer " ++ t) ("Bearer ") = true :=
    strStartsWith_append _ t
  have hdrop : strDrop ("Bearer " ++ t) 7 = t := strDrop_append ("Bearer ") t
  have hv : verifyAccessToken jose tokenServiceId (some ("Bearer " ++ t)) =
      .error .UntrustedIssuer := by
    simp only [verifyAccessToken, hpre, if_true, hdrop, hj]
    simp [hiss]
  refine ⟨hv, fun requiredScope => ?_⟩
  simp only [verifyToken, hv]

/-- A concrete `jose` oracle for the access-token scenarios: `"self"` is a
validly signed self-issued assertion (`iss = sub = "agent://a"`), and
`"at"` is a Token-Service-issued access token for `"agent://a"` carrying
only the `tickets.read` scope. -/
def joseAccessOracle : String → Option AccessPayload := fun t =>
  if t = "self" then some ⟨some ("agent://a"), some ("agent://a"), []⟩
  else if t = "at" then
    some ⟨some ("https://token-service"), some ("agent://a"), ["tickets.read"]⟩
  else none

/-- C2, witness: the well-formed, validly-signed self-issued assertion
`"self"` (`iss = sub = "agent://a"`) is rejected with `UntrustedIssuer`
where a token issued by `"https://token-service"` is required. -/
theorem access_token_untrusted_issuer_rejected_witness :
    verifyAccessToken joseAccessOracle ("https://token-service")
      (some ("Bearer self")) = .error .UntrustedIssuer ∧
    verifyToken joseAccessOracle ("https://token-service") ("Bearer self")
      "tickets.read" = .error .TokenServiceRequired := by
  have h := access_token_untrusted_issuer_rejected joseAccessOracle
    "https://token-service" "self" ⟨some ("agent://a"), some ("agent://a"), []⟩
    (by rfl) (by decide)
  exact ⟨h.1, h.2 ("tickets.read")⟩

/-! ## C3 — missing scope fails and blocks the business logic -/

/-- C3: for every access-token verification with a required scope, if the
token's decoded scope list does not contain the required scope, the check
fails with `InsufficientScope` naming exactly the missing scope, and
`createTicketTool`'s business logic never runs: its execute returns that
error and produces no ticket. -/
theorem insufficient_scope_blocks_business_logic
    (jose : String → Option AccessPayload) (tokenServiceId t : String)
    (p : AccessPayload) (a requiredScope : String)
    (hj : jose t = some p) (hiss : p.iss = some tokenServiceId)
    (hsub : p.sub = some a)
    (hscope : p.scopes.contains requiredScope = false) :
    verifyToken jose tokenServiceId ("Bearer " ++ t) requiredScope =
      .error (.InsufficientScope requiredScope) ∧
    (p.scopes.contains ("tickets.write") = false →
      ∀ title description nowMs,
        createTicketToolExecute jose tokenServiceId t title description nowMs =
          .error (.InsufficientScope ("tickets.write"))) := by
  have hpre : strStartsWith ("Bearer " ++ t) ("Bearer ") = true :=
    strStartsWith_append _ t
  have hdrop : strDrop ("Bearer " ++ t) 7 = t := strDrop_append ("Bearer ") t
  have hverify : ∀ req : String, p.scopes.contains req = false →
      verifyToken jose tokenServiceId ("Bearer " ++ t) req =
        .error (.InsufficientScope req) := by
    intro req hreq
    have hnm : req ∉ p.scopes := by simpa using hreq
    simp only [verifyToken, verifyAccessToken, hpre, if_true, hdrop, hj]
    simp [hiss, hsub, hnm]
  refine ⟨hverify requiredScope hscope, fun hw title description nowMs => ?_⟩
  simp only [createTicketToolExecute, hverify ("tickets.write") hw]

/-- C3, witness: the access token `"at"` carries only `tickets.read`;
requiring `tickets.write` fails naming `tickets.write`, and the
create-ticket tool returns that error without building a ticket. -/
theorem insufficient_scope_blocks_business_logic_witness :
    verifyToken joseAccessOracle ("https://token-service") ("Bearer at")
      "tickets.write" = .error (.InsufficientScope ("tickets.write")) ∧
    createTicketToolExecute joseAccessOracle ("https://token-service") "at"
      "Broken monitor" none 5 = .error (.InsufficientScope ("tickets.write")) := by
  have h := insufficient_scope_blocks_business_logic joseAccessOracle
    "https://token-service" "at"
    ⟨some ("https://token-service"), some ("agent://a"), ["tickets.read"]⟩
    "agent://a" "tickets.write" (by rfl) (by rfl) (by rfl) (by decide)
  exact ⟨h.1, h.2 (by decide) "Broken monitor" none 5⟩

/-! ## C4 — scope superset on cache hits -/

/-- The decode oracle of the cache scenarios: `"T1"` decodes with
`exp = 1000000` seconds; everything else fails to decode. -/
def decodeCacheOracle : String → Option DecodedPayload := fun t =>
  if t = "T1" then some ⟨some 1000000⟩ else none

/-- C4, counterexample. The claim says a cache-served token's recorded
scope set is a superset of the requested scope set. But the key joins the
sorted scopes with `","`, so the single scope `"b,c"` and the scope pair
`"b"`, `"c"` collide on the key `"a:b,c"`: a token exchanged and stored
for the one-element scope set `{"b,c"}` is then served from the cache to
a request for `{"b", "c"}`, although `"b"` is not among its recorded
scopes. -/
theorem cache_scope_superset_cex :
    cacheKey ("a") ["b,c"] = cacheKey ("a") ["b", "c"] ∧
    (getAccessToken decodeCacheOracle 1000 ("T2")
      (getAccessToken decodeCacheOracle 0 ("T1") [] "a" ["b,c"]).cache
      "a" ["b", "c"]).fromCache = true ∧
    (getAccessToken decodeCacheOracle 1000 ("T2")
      (getAccessToken decodeCacheOracle 0 ("T1") [] "a" ["b,c"]).cache
      "a" ["b", "c"]).token = "T1" ∧
    (TokenCache.getKey
      (getAccessToken decodeCacheOracle 0 ("T1") [] "a" ["b,c"]).cache
      (cacheKey ("a") ["b", "c"])).map CacheEntry.scopes = some ["b,c"] ∧
    "b" ∈ ["b", "c"] ∧ "b" ∉ (["b,c"] : List String) := by
  refine ⟨by decide, by decide, by decide, by decide, by decide, by decide⟩

/-- Full case analysis of one `getAccessToken` call: either the hit
condition holds — an entry exists under the key, `now < expires`, and the
independently decoded expiry is a nonzero `e` with `now + 30000 < e` — and
the call returns that entry's token from the unchanged cache, or the hit
condition fails and the call returns the fresh token, storing it (over the
old cache, or the old cache with the key deleted) under the key. -/
theorem getAccessToken_cases (decode : String → Option DecodedPayload)
    (now : Int) (freshToken : String) (c : TokenCache) (aud : String)
    (scopes : List String) :
    (∃ cached e, TokenCache.getKey c (cacheKey aud scopes) = some cached ∧
      now < cached.expires ∧ tokenExpMs decode cached.token = some e ∧
      e ≠ 0 ∧ now + 30000 < e ∧
      getAccessToken decode now freshToken c aud scopes =
        ⟨cached.token, true, c⟩) ∨
    (¬ (∃ cached e, TokenCache.getKey c (cacheKey aud scopes) = some cached ∧
        now < cached.expires ∧ tokenExpMs decode cached.token = some e ∧
        e ≠ 0 ∧ now + 30000 < e) ∧
      ∃ c' u, (c' = c ∨ c' = TokenCache.delKey c (cacheKey aud scopes)) ∧
        getAccessToken decode now freshToken c aud scopes =
          ⟨freshToken, false, TokenCache.setKey c' (cacheKey aud scopes)
            ⟨freshToken, u, aud, scopes⟩⟩) := by
  unfold getAccessToken
  split
  next cached hget =>
    split
    next hexp =>
      split
      next e htok =>
        split
        next hfr =>
          exact Or.inl ⟨cached, e, hget, hexp, htok, hfr.1, hfr.2, rfl⟩
        next hfr =>
          refine Or.inr ⟨?_, _, _, Or.inr rfl, rfl⟩
          rintro ⟨cached', e', hget', hexp', htok', he', hfr'⟩
          rw [hget] at hget'
          obtain rfl := Option.some.inj hget'
          rw [htok] at htok'
          obtain rfl := Option.some.inj htok'
          exact hfr ⟨he', hfr'⟩
      next htok =>
        refine Or.inr ⟨?_, _, _, Or.inr rfl, rfl⟩
        rintro ⟨cached', e', hget', hexp', htok', he', hfr'⟩
        rw [hget] at hget'
        obtain rfl := Option.some.inj hget'
        rw [htok] at htok'
        exact Option.noConfusion htok'
    next hexp =>
      refine Or.inr ⟨?_, _, _, Or.inl rfl, rfl⟩
      rintro ⟨cached', e', hget', hexp', htok', he', hfr'⟩
      rw [hget] at hget'
      obtain rfl := Option.some.inj hget'
      exact hexp hexp'
  next hget =>
    refine Or.inr ⟨?_, _, _, Or.inl rfl, rfl⟩
    rintro ⟨cached', e', hget', hexp', htok', he', hfr'⟩
    rw [hget] at hget'
    exact Option.noConfusion hget'

/-- C4 (amended): on a reachable cache, a cache hit serves an entry stored
under exactly the requested key; provided no scope name of either the
request or the stored entry contains a `","` (and none is empty, and
neither audience contains a `":"`), the entry's recorded audience equals
the requested audience and its recorded scope set contains every requested
scope — the superset the claim asks for, which degenerates to set
equality. A request whose key has no entry at all always performs a fresh
exchange. With comma-carrying scope names the property fails, as the
counterexample shows. -/
theorem cache_hit_scope_superset
    (decode : String → Option DecodedPayload) (now : Int)
    (freshToken : String) (c : TokenCache) (aud : String)
    (scopes : List String) (hc : Reached c)
    (haud : (':') ∉ aud.data)
    (hscopes : ∀ s ∈ scopes, s ≠ "" ∧ (',') ∉ s.data) :
    ((getAccessToken decode now freshToken c aud scopes).fromCache = true →
      ∃ cached, TokenCache.getKey c (cacheKey aud scopes) = some cached ∧
        (getAccessToken decode now freshToken c aud scopes).token =
          cached.token ∧
        ((':') ∉ cached.aud.data →
          (∀ s ∈ cached.scopes, s ≠ "" ∧ (',') ∉ s.data) →
          cached.aud = aud ∧ ∀ s ∈ scopes, s ∈ cached.scopes)) ∧
    (TokenCache.getKey c (cacheKey aud scopes) = none →
      (getAccessToken decode now freshToken c aud scopes).fromCache = false ∧
      (getAccessToken decode now freshToken c aud scopes).token = freshToken) := by
  rcases getAccessToken_cases decode now freshToken c aud scopes with
    ⟨cached, e, hget, hexp, htok, he, hfr, heq⟩ | ⟨hmiss, c', u, hc', heq⟩
  · constructor
    · intro _
      refine ⟨cached, hget, by rw [heq], fun haud' hscopes' => ?_⟩
      have hkeyeq : cacheKey aud scopes = cacheKey cached.aud cached.scopes :=
        reached_key_consistent hc _ _ hget
      obtain ⟨haudeq, hjoin⟩ := cacheKey_inj haud haud' hkeyeq
      have hgood₁ : ∀ s ∈ sortScopes scopes, goodScope s := fun s hs =>
        hscopes s (sortScopes_mem.mp hs)
      have hgood₂ : ∀ s ∈ sortScopes cached.scopes, goodScope s := fun s hs =>
        hscopes' s (sortScopes_mem.mp hs)
      have hsorted : sortScopes scopes = sortScopes cached.scopes :=
        joinComma_inj hgood₁ hgood₂ hjoin
      refine ⟨haudeq.symm, fun s hs => ?_⟩
      have hmem : s ∈ sortScopes scopes := sortScopes_mem.mpr hs
      rw [hsorted] at hmem
      exact sortScopes_mem.mp hmem
    · intro hnone
      rw [hnone] at hget
      exact Option.noConfusion hget
  · constructor
    · intro hhit
      rw [heq] at hhit
      exact Bool.noConfusion hhit
    · intro _
      rw [heq]
      exact ⟨rfl, rfl⟩

/-- C4, witness for the amended theorem: a cache reached by storing a
token for the comma-free scope set `{"read", "write"}` serves it back to a
request for the same set, whose recorded scopes then contain each
requested scope. -/
theorem cache_hit_scope_superset_witness :
    (getAccessToken decodeCacheOracle 1000 ("T2")
      (getAccessToken decodeCacheOracle 0 ("T1") [] "a" ["read", "write"]).cache
      "a" ["read", "write"]).fromCache = true ∧
    ∃ cached,
      TokenCache.getKey
        (getAccessToken decodeCacheOracle 0 ("T1") [] "a" ["read", "write"]).cache
        (cacheKey ("a") ["read", "write"]) = some cached ∧
      (getAccessToken decodeCacheOracle 1000 ("T2")
        (getAccessToken decodeCacheOracle 0 ("T1") [] "a" ["read", "write"]).cache
        "a" ["read", "write"]).token = cached.token ∧
      ((':') ∉ cached.aud.data →
        (∀ s ∈ cached.scopes, s ≠ "" ∧ (',') ∉ s.data) →
        cached.aud = "a" ∧ ∀ s ∈ ["read", "write"], s ∈ cached.scopes) := by
  have h := cache_hit_scope_superset decodeCacheOracle 1000 ("T2")
    (getAccessToken decodeCacheOracle 0 ("T1") [] "a" ["read", "write"]).cache
    "a" ["read", "write"]
    (Reached.step decodeCacheOracle 0 ("T1") [] "a" ["read", "write"] Reached.empty)
    (by decide) (by decide)
  exact ⟨by decide, h.1 (by decide)⟩

/-! ## C5 — the cache hit rule -/

/-- The decode oracle of the boundary scenario: `"t"` decodes with
`exp = 30` seconds, i.e. exactly 30000 ms. -/
def decodeBoundaryOracle : String → Option DecodedPayload := fun t =>
  if t = "t" then some ⟨some 30⟩ else none

/-- C5, counterexample. The claim requires a hit when the decoded expiry
is *at least* 30 seconds in the future; the code requires strictly more
(`tokenExp > Date.now() + 30 * 1000`). At `now = 0` the entry under the
requested key exists, `now < cacheUntil` (`0 < 1`), and the stored token
decodes to expiry 30000 ms — exactly 30 seconds in the future, satisfying
the claim's condition — yet the call evicts and exchanges
(`fromCache = false`). -/
theorem cache_hit_30s_boundary_cex :
    TokenCache.getKey [("a:s", ⟨"t", 1, "a", ["s"]⟩)] (cacheKey ("a") ["s"]) =
      some ⟨"t", 1, "a", ["s"]⟩ ∧
    (0 : Int) < 1 ∧
    tokenExpMs decodeBoundaryOracle ("t") = some 30000 ∧
    (0 : Int) + 30000 ≤ 30000 ∧
    (getAccessToken decodeBoundaryOracle 0 ("f") [("a:s", ⟨"t", 1, "a", ["s"]⟩)]
      "a" ["s"]).fromCache = false := by
  refine ⟨by decide, by decide, by decide, by decide, by decide⟩

/-- C5 (amended): a `getAccessToken` call is served from the cache iff an
entry exists under the computed key, `now < cacheUntil`, and the expiry
decoded independently from the stored token itself is a nonzero value
*strictly more* than 30 seconds in the future; on a hit the entry's token
is returned and the cache is unchanged, and on a miss (either time check
failing, decode failure, or no entry) the fresh token is returned and is
now stored under the key in place of any previous entry. -/
theorem cache_hit_rule (decode : String → Option DecodedPayload) (now : Int)
    (freshToken : String) (c : TokenCache) (aud : String)
    (scopes : List String) :
    ((getAccessToken decode now freshToken c aud scopes).fromCache = true ↔
      ∃ cached e, TokenCache.getKey c (cacheKey aud scopes) = some cached ∧
        now < cached.expires ∧ tokenExpMs decode cached.token = some e ∧
        e ≠ 0 ∧ now + 30000 < e) ∧
    ((getAccessToken decode now freshToken c aud scopes).fromCache = true →
      ∃ cached, TokenCache.getKey c (cacheKey aud scopes) = some cached ∧
        (getAccessToken decode now freshToken c aud scopes).token =
          cached.token ∧
        (getAccessToken decode now freshToken c aud scopes).cache = c) ∧
    ((getAccessToken decode now freshToken c aud scopes).fromCache = false →
      (getAccessToken decode now freshToken c aud scopes).token = freshToken ∧
      ∃ entry,
        TokenCache.getKey (getAccessToken decode now freshToken c aud scopes).cache
          (cacheKey aud scopes) = some entry ∧
        entry.token = freshToken ∧ entry.aud = aud ∧ entry.scopes = scopes) := by
  rcases getAccessToken_cases decode now freshToken c aud scopes with
    ⟨cached, e, hget, hexp, htok, he, hfr, heq⟩ | ⟨hmiss, c', u, hc', heq⟩
  · refine ⟨⟨fun _ => ⟨cached, e, hget, hexp, htok, he, hfr⟩, fun _ => by rw [heq]⟩,
      fun _ => ⟨cached, hget, by rw [heq], by rw [heq]⟩, fun hmiss' => ?_⟩
    rw [heq] at hmiss'
    exact Bool.noConfusion hmiss'
  · refine ⟨⟨fun hhit => ?_, fun hcond => absurd hcond hmiss⟩,
      fun hhit => ?_, fun _ => ?_⟩
    · rw [heq] at hhit
      exact Bool.noConfusion hhit
    · rw [heq] at hhit
      exact Bool.noConfusion hhit
    · rw [heq]
      refine ⟨rfl, ⟨freshToken, u, aud, scopes⟩, ?_, rfl, rfl, rfl⟩
      show TokenCache.getKey
        (TokenCache.setKey c' (cacheKey aud scopes) _) (cacheKey aud scopes) = _
      rw [getKey_setKey, if_pos rfl]

/-- C5, witness: a cache holding a token with a far-future decoded expiry
under the requested key is served (`fromCache = true`), by the forward
direction of the amended hit rule at a concrete state. -/
theorem cache_hit_rule_witness :
    (getAccessToken decodeCacheOracle 1000 ("T2")
      [("a:s", ⟨"T1", 2000, "a", ["s"]⟩)] "a" ["s"]).fromCache = true :=
  (cache_hit_rule decodeCacheOracle 1000 ("T2")
    [("a:s", ⟨"T1", 2000, "a", ["s"]⟩)] "a" ["s"]).1.mpr
    ⟨⟨"T1", 2000, "a", ["s"]⟩, 1000000000, by decide, by decide, by decide,
      by decide, by decide⟩

/-! ## C6 — sorted scope sets share the cache key and the entry -/

/-- C6: two `getOrFetch` requests with the same audience whose scope lists
are permutations of one another (equal sets/multisets, hence equal after
sorting) compute the identical cache key, and therefore behave
identically: same returned token and same hit/miss outcome against any
cache state, producing or reusing the same entry. -/
theorem cache_key_perm_reuse (aud : String) (s1 s2 : List String)
    (h : s1.Perm s2) :
    cacheKey aud s1 = cacheKey aud s2 ∧
    ∀ decode now freshToken c,
      (getAccessToken decode now freshToken c aud s1).token =
        (getAccessToken decode now freshToken c aud s2).token ∧
      (getAccessToken decode now freshToken c aud s1).fromCache =
        (getAccessToken decode now freshToken c aud s2).fromCache := by
  have hkey : cacheKey aud s1 = cacheKey aud s2 := by
    unfold cacheKey
    rw [sortScopes_perm h]
  refine ⟨hkey, fun decode now freshToken c => ?_⟩
  rcases getAccessToken_cases decode now freshToken c aud s1 with
    ⟨c1, e1, hg1, hx1, ht1, he1, hf1, hq1⟩ | ⟨hm1, c1', u1, hc1, hq1⟩ <;>
    rcases getAccessToken_cases decode now freshToken c aud s2 with
      ⟨c2, e2, hg2, hx2, ht2, he2, hf2, hq2⟩ | ⟨hm2, c2', u2, hc2, hq2⟩
  · rw [hkey] at hg1
    obtain rfl := Option.some.inj (hg1.symm.trans hg2)
    rw [hq1, hq2]
    exact ⟨rfl, rfl⟩
  · exact absurd ⟨c1, e1, hkey ▸ hg1, hx1, ht1, he1, hf1⟩ hm2
  · exact absurd ⟨c2, e2, hkey.symm ▸ hg2, hx2, ht2, he2, hf2⟩ hm1
  · rw [hq1, hq2]
    exact ⟨rfl, rfl⟩

/-- C6, witness: `["write", "read"]` and `["read", "write"]` share the key
and yield the same result against the empty cache. -/
theorem cache_key_perm_reuse_witness :
    cacheKey ("a") ["write", "read"] = cacheKey ("a") ["read", "write"] ∧
    (getAccessToken decodeCacheOracle 0 ("T1") [] "a" ["write", "read"]).token =
      (getAccessToken decodeCacheOracle 0 ("T1") [] "a" ["read", "write"]).token := by
  have h := cache_key_perm_reuse ("a") ["write", "read"] ["read", "write"]
    (List.Perm.swap ("read") "write" [])
  exact ⟨h.1, (h.2 decodeCacheOracle 0 ("T1") []).1⟩

/-! ## C7 — shape of a successfully produced client assertion -/

/-- C7: every successfully produced client assertion has
`issuer = subject = the resolved agent identifier`, `issuedAt` equal to
the current time (`floor(Date.now()/1000)`), `expiresAt = issuedAt + 60`,
the `jwtId` freshly drawn from `randomUUID()` on this call, and a
protected header carrying the EdDSA algorithm and the resolved key's
`kid`. -/
theorem client_assertion_shape (env : SignEnv) (path aud : String)
    (agentId : Option String) (a : ClientAssertion)
    (h : makeClientAssertion env path aud agentId = .ok a) :
    a.alg = "EdDSA" ∧ a.iss = a.sub ∧ a.aud = aud ∧
    a.iat = env.nowMs / 1000 ∧ a.exp = a.iat + 60 ∧ a.jti = env.uuid ∧
    ∃ priv agent_id, resolvePriv env path agentId = .ok (priv, agent_id) ∧
      priv.kid = some a.kid ∧ agent_id = some a.iss := by
  unfold makeClientAssertion at h
  cases hres : resolvePriv env path agentId with
  | error e =>
    rw [hres] at h
    exact Except.noConfusion h
  | ok pr =>
    obtain ⟨priv, agent_id⟩ := pr
    simp only [hres] at h
    cases hkid : priv.kid with
    | none =>
      simp only [hkid] at h
      exact Except.noConfusion h
    | some kid =>
      simp only [hkid] at h
      by_cases hk : kid = ""
      · simp only [if_pos hk] at h
        exact Except.noConfusion h
      · simp only [if_neg hk] at h
        cases hag : agent_id with
        | none =>
          simp only [hag] at h
          exact Except.noConfusion h
        | some ag =>
          simp only [hag] at h
          by_cases ha : ag = ""
          · simp only [if_pos ha] at h
            exact Except.noConfusion h
          · simp only [if_neg ha] at h
            obtain rfl := (Except.ok.inj h).symm
            exact ⟨rfl, rfl, rfl, rfl, rfl, rfl, priv, some ag, rfl, hkid, rfl⟩

/-- A concrete signing environment: the local file `"k.json"` holds a JWK
with `kid = "kid1"` and `agent_id = "agent://a"`; the clock reads 5000 ms
and this call's `randomUUID()` is `"uuid-1"`. -/
def signEnvFile : SignEnv :=
  ⟨fun _ => none,
   fun p => if p = "k.json" then some ⟨some ("kid1"), some ("agent://a")⟩ else none,
   5000, "uuid-1"⟩

/-- C7, witness: signing with `signEnvFile` produces exactly the assertion
with `iss = sub = "agent://a"`, `iat = 5`, `exp = 65`, `jti = "uuid-1"`,
and header `{alg: "EdDSA", kid: "kid1"}`, which satisfies every conjunct
of the shape theorem. -/
theorem client_assertion_shape_witness :
    makeClientAssertion signEnvFile ("k.json") "https://aud" none =
      .ok ⟨"EdDSA", "kid1", "agent://a", "agent://a", "https://aud", 5, 65,
        "uuid-1"⟩ ∧
    (⟨"EdDSA", "kid1", "agent://a", "agent://a", "https://aud", 5, 65,
        "uuid-1"⟩ : ClientAssertion).alg = "EdDSA" := by
  refine ⟨by rfl, (client_assertion_shape signEnvFile ("k.json") "https://aud"
    none _ (by rfl)).1⟩

/-! ## C8 — failure modes of the signer -/

/-- C8: once the private JWK is resolved, a missing (or empty) `kid` fails
the call with `MissingKeyId`; with a `kid` present, an agent identity
resolvable neither from the key material nor from a caller-supplied
override (both falsy) fails the call with `MissingAgentIdentifier`; and a
failed call never produces an assertion. -/
theorem client_assertion_failure_modes (env : SignEnv) (path aud : String)
    (agentId : Option String) (priv : Jwk) (agent_id : Option String)
    (h : resolvePriv env path agentId = .ok (priv, agent_id)) :
    (strTruthy priv.kid = false →
      makeClientAssertion env path aud agentId = .error .MissingKeyId) ∧
    (strTruthy priv.kid = true → strTruthy agentId = false →
      strTruthy priv.agent_id = false →
      makeClientAssertion env path aud agentId =
        .error .MissingAgentIdentifier) ∧
    (∀ err, makeClientAssertion env path aud agentId = .error err →
      ∀ a, makeClientAssertion env path aud agentId ≠ .ok a) := by
  have hagfalsy : strTruthy agentId = false → strTruthy priv.agent_id = false →
      strTruthy agent_id = false := by
    intro hov hkm
    unfold resolvePriv at h
    by_cases hurl : isUrlPath path
    · rw [if_pos hurl] at h
      cases hf : env.fetch path with
      | none =>
        rw [hf] at h
        exact Except.noConfusion h
      | some payload =>
        cases payload with
        | jwks keys =>
          simp only [hf] at h
          cases hh : keys.head? with
          | none =>
            simp only [hh] at h
            exact Except.noConfusion h
          | some priv' =>
            simp only [hh, hov, Bool.false_eq_true, if_false] at h
            obtain ⟨rfl, rfl⟩ := Prod.mk.injEq _ _ _ _ ▸ Except.ok.inj h
            exact hkm
        | single priv' =>
          simp only [hf, hov, Bool.false_eq_true, if_false] at h
          obtain ⟨rfl, rfl⟩ := Prod.mk.injEq _ _ _ _ ▸ Except.ok.inj h
          exact hkm
    · rw [if_neg hurl] at h
      cases hf : env.readFile path with
      | none =>
        rw [hf] at h
        exact Except.noConfusion h
      | some priv' =>
        simp only [hf] at h
        obtain ⟨rfl, rfl⟩ := Prod.mk.injEq _ _ _ _ ▸ Except.ok.inj h
        exact hkm
  refine ⟨?_, ?_, ?_⟩
  · intro hkid
    unfold makeClientAssertion
    cases hk : priv.kid with
    | none => simp only [h, hk]
    | some k =>
      rw [hk] at hkid
      simp only [strTruthy, decide_eq_false_iff_not, not_not] at hkid
      simp only [h, hk, if_pos hkid]
  · intro hkid hov hkm
    have hag : strTruthy agent_id = false := hagfalsy hov hkm
    unfold makeClientAssertion
    cases hk : priv.kid with
    | none =>
      rw [hk] at hkid
      exact Bool.noConfusion hkid
    | some k =>
      rw [hk] at hkid
      have hkne : ¬ k = "" := by simpa [strTruthy] using hkid
      cases hagv : agent_id with
      | none => simp only [h, hk, if_neg hkne, hagv]
      | some ag =>
        rw [hagv] at hag
        have hag' : ag = "" := by simpa [strTruthy] using hag
        simp only [h, hk, if_neg hkne, hagv, if_pos hag']
  · intro err herr a hok
    rw [herr] at hok
    exact Except.noConfusion hok

/-- C8, witness: reading the `"nokid.json"` file (JWK without `kid`) fails
with `MissingKeyId`; reading `"noagent.json"` (JWK with `kid` but no
`agent_id`) fails with `MissingAgentIdentifier` even though no override
was supplied; neither call yields an assertion. -/
theorem client_assertion_failure_modes_witness :
    makeClientAssertion
      ⟨fun _ => none,
       fun p => if p = "nokid.json" then some ⟨none, some ("agent://a")⟩ else none,
       0, "u"⟩ "nokid.json" "https://aud" none = .error .MissingKeyId ∧
    makeClientAssertion
      ⟨fun _ => none,
       fun p => if p = "noagent.json" then some ⟨some ("kid1"), none⟩ else none,
       0, "u"⟩ "noagent.json" "https://aud" none =
      .error .MissingAgentIdentifier := by
  refine ⟨(client_assertion_failure_modes
      ⟨fun _ => none,
       fun p => if p = "nokid.json" then some ⟨none, some ("agent://a")⟩ else none,
       0, "u"⟩ "nokid.json" "https://aud" none ⟨none, some ("agent://a")⟩
      (some ("agent://a")) (by rfl)).1 (by rfl),
    ((client_assertion_failure_modes
      ⟨fun _ => none,
       fun p => if p = "noagent.json" then some ⟨some ("kid1"), none⟩ else none,
       0, "u"⟩ "noagent.json" "https://aud" none ⟨some ("kid1"), none⟩
      none (by rfl)).2.1 (by rfl) (by rfl) (by rfl))⟩

/-! ## C10 — local key files ignore the caller-supplied agent id -/

/-- C10: when `privateJwkPath` is a local file path (not `http://` or
`https://`), the caller-supplied `agentId` argument is ignored: the result
is identical to a call without it, the resolved identity is solely the
file's `agent_id` member, the call fails with `MissingAgentIdentifier`
when the file lacks `agent_id` even though an override was supplied (given
a usable `kid`), and any produced assertion has
`issuer = subject = the file's agent_id`. -/
theorem local_path_ignores_caller_agent_id (env : SignEnv)
    (path aud : String) (agentId : Option String)
    (hurl : isUrlPath path = false) :
    (makeClientAssertion env path aud agentId =
      makeClientAssertion env path aud none) ∧
    (∀ j, env.readFile path = some j →
      resolvePriv env path agentId = .ok (j, j.agent_id)) ∧
    (∀ j, env.readFile path = some j → strTruthy j.kid = true →
      strTruthy j.agent_id = false →
      makeClientAssertion env path aud agentId =
        .error .MissingAgentIdentifier) ∧
    (∀ j a, env.readFile path = some j →
      makeClientAssertion env path aud agentId = .ok a →
      j.agent_id = some a.iss ∧ a.iss = a.sub) := by
  have hres : ∀ aid : Option String, resolvePriv env path aid =
      match env.readFile path with
      | none => .error .FileReadFailed
      | some priv => .ok (priv, priv.agent_id) := by
    intro aid
    unfold resolvePriv
    rw [if_neg (by simp [hurl])]
  refine ⟨?_, ?_, ?_, ?_⟩
  · unfold makeClientAssertion
    rw [hres agentId, hres none]
  · intro j hj
    rw [hres agentId, hj]
  · intro j hj hkid hagf
    unfold makeClientAssertion
    cases hk : j.kid with
    | none =>
      rw [hk] at hkid
      exact Bool.noConfusion hkid
    | some k =>
      have hkne : ¬ k = "" := by
        rw [hk] at hkid
        simpa [strTruthy] using hkid
      cases hag : j.agent_id with
      | none => simp only [hres agentId, hj, hk, hag, if_neg hkne]
      | some ag =>
        rw [hag] at hagf
        have hag' : ag = "" := by simpa [strTruthy] using hagf
        simp only [hres agentId, hj, hk, hag, if_neg hkne, if_pos hag']
  · intro j a hj hok
    unfold makeClientAssertion at hok
    simp only [hres agentId, hj] at hok
    cases hk : j.kid with
    | none =>
      simp only [hk] at hok
      exact Except.noConfusion hok
    | some k =>
      simp only [hk] at hok
      by_cases hkne : k = ""
      · simp only [if_pos hkne] at hok
        exact Except.noConfusion hok
      · simp only [if_neg hkne] at hok
        cases hag : j.agent_id with
        | none =>
          simp only [hag] at hok
          exact Except.noConfusion hok
        | some ag =>
          simp only [hag] at hok
          by_cases ha : ag = ""
          · simp only [if_pos ha] at hok
            exact Except.noConfusion hok
          · simp only [if_neg ha] at hok
            obtain rfl := (Except.ok.inj hok).symm
            exact ⟨rfl, rfl⟩

/-- C10, witness: with the local file `"na.json"` (a JWK carrying a `kid`
but no `agent_id`), the call fails with `MissingAgentIdentifier` although
the caller supplied `"agent://override"`; and the call with the override
equals the call without it. -/
theorem local_path_ignores_caller_agent_id_witness :
    makeClientAssertion
      ⟨fun _ => none,
       fun p => if p = "na.json" then some ⟨some ("kid1"), none⟩ else none,
       0, "u"⟩ "na.json" "https://aud" (some ("agent://override")) =
      .error .MissingAgentIdentifier ∧
    makeClientAssertion
      ⟨fun _ => none,
       fun p => if p = "na.json" then some ⟨some ("kid1"), none⟩ else none,
       0, "u"⟩ "na.json" "https://aud" (some ("agent://override")) =
    makeClientAssertion
      ⟨fun _ => none,
       fun p => if p = "na.json" then some ⟨some ("kid1"), none⟩ else none,
       0, "u"⟩ "na.json" "https://aud" none := by
  have h := local_path_ignores_caller_agent_id
    ⟨fun _ => none,
     fun p => if p = "na.json" then some ⟨some ("kid1"), none⟩ else none,
     0, "u"⟩ "na.json" "https://aud" (some ("agent://override")) (by decide)
  exact ⟨h.2.2.1 ⟨some ("kid1"), none⟩ (by rfl) (by rfl) (by rfl), h.1⟩

/-! ## C9 — configuration defaults versus fail-fast -/

/-- C9, counterexample. The claim says every required configuration value
fails fast when absent and none is silently defaulted. With an entirely
empty environment, the defaulting `getAccessToken` variant resolves the
private-key path, agent identifier and Token Service URL to hard-coded
values, and the verifier construction sites resolve the JWKS URLs and
expected audience to hard-coded values — no operation fails. -/
theorem config_silent_defaults_cex :
    helpdeskConfigDefaults (fun _ => none) =
      ("/home/brucec/techplay2/sandbox/auth-template-hackathon-v0/secrets/a1-ed25519-2025-08-15-d0a5e088.private.jwk.json",
       "agent://demo/a1", "http://localhost:8787") ∧
    verifierConfigDefaults (fun _ => none) =
      ("http://localhost:8787/.well-known/jwks.json",
       "https://tools.local/tickets",
       "http://localhost:8787/.well-known/jwks.json") :=
  ⟨rfl, rfl⟩

/-- C9 (amended): only the env-validating `getAccessToken` variant fails
fast — a falsy `HELPDESK_PRIVATE_JWK_PATH`, `HELPDESK_AGENT_ID` or
`TOKEN_SERVICE_URL` raises the corresponding missing-configuration error,
in that order of precedence; every other cited configuration read
(`||`/`??` sites) silently substitutes its hard-coded default when the
variable is absent. -/
theorem config_fail_fast_amended (env : String → Option String) :
    (strTruthy (env ("HELPDESK_PRIVATE_JWK_PATH")) = false →
      helpdeskConfigChecked env = .error .MissingPrivateJwkPath) ∧
    (strTruthy (env ("HELPDESK_PRIVATE_JWK_PATH")) = true →
      strTruthy (env ("HELPDESK_AGENT_ID")) = false →
      helpdeskConfigChecked env = .error .MissingAgentId) ∧
    (strTruthy (env ("HELPDESK_PRIVATE_JWK_PATH")) = true →
      strTruthy (env ("HELPDESK_AGENT_ID")) = true →
      strTruthy (env ("TOKEN_SERVICE_URL")) = false →
      helpdeskConfigChecked env = .error .MissingTokenServiceUrl) ∧
    (∀ name dflt, env name = none →
      envOr env name dflt = dflt ∧ envNullish env name dflt = dflt) := by
  refine ⟨?_, ?_, ?_, ?_⟩
  · intro h1
    unfold helpdeskConfigChecked
    rw [if_pos (by simp [h1])]
  · intro h1 h2
    unfold helpdeskConfigChecked
    rw [if_neg (by simp [h1]), if_pos (by simp [h2])]
  · intro h1 h2 h3
    unfold helpdeskConfigChecked
    rw [if_neg (by simp [h1]), if_neg (by simp [h2]), if_pos (by simp [h3])]
  · intro name dflt hn
    unfold envOr envNullish
    rw [hn]
    exact ⟨rfl, rfl⟩

/-- C9, witness for the amended theorem: against the empty environment the
checked variant fails fast on the missing key path, while both defaulting
combinators silently return their fallback. -/
theorem config_fail_fast_amended_witness :
    helpdeskConfigChecked (fun _ => none) = .error .MissingPrivateJwkPath ∧
    envOr (fun _ => none) ("X") ("dflt") = "dflt" ∧
    envNullish (fun _ => none) ("X") ("dflt") = "dflt" := by
  have h := config_fail_fast_amended (fun _ => none)
  exact ⟨h.1 (by rfl), (h.2.2.2 ("X") "dflt" rfl).1, (h.2.2.2 ("X") "dflt" rfl).2⟩

end AuthMastra
